import Mathlib

/-!
# Verification of `sam_opts.c` (samtools global option helper layer)

Shallow embedding of the option-remapping and dispatch layer in `sam_opts.c`.

Modelling conventions:
* `struct option` (getopt) is `LOption`; a `NULL` long-option name is `Option.none`,
  so the all-zero terminating sentinel is `⟨none, 0, 0⟩`.  The `flag` field is not
  modelled: it is never read or written by this layer.
* C strings are NUL-free `List Char`; a `NULL` `char *` argument is `Option.none`.
* The in-place array walk of `assign_short_opts` is modelled with an explicit
  state `RemapState` (array contents plus the read cursor `i` and write cursor `j`),
  with `List.set` / `List.getD` for `lopts[j] = lopts[i]`.
* `int` values (`val` codes, return codes, verbosity) are `Int`.
-/

/-- One `struct option` entry.  `name = none` encodes a `NULL` long-option name
(the table terminator); `flag` is omitted (always `NULL` here, never accessed). -/
structure LOption where
  name : Option String
  has_arg : Nat
  val : Int
deriving DecidableEq, Repr

instance : Inhabited LOption := ⟨⟨none, 0, 0⟩⟩

/-- State of the `assign_short_opts` loop: the option array being rewritten in
place, the read cursor `i` and the write cursor `j`. -/
structure RemapState where
  arr : List LOption
  i : Nat
  j : Nat
deriving DecidableEq, Repr

/-- The loop body of `assign_short_opts`, iterated over the remaining control
characters.  Mirrors the C exactly: each iteration does `lopts[j] = lopts[i]`,
then on `-` leaves `j` in place (the `j--` cancelling the `j++`), on `.` keeps the
copied entry unchanged, and otherwise sets the copied entry's `val` to the control
character; `i` advances every iteration. -/
def asoLoop : List LOption → Nat → Nat → List Char → RemapState
  | arr, i, j, [] => ⟨arr, i, j⟩
  | arr, i, j, ch :: rest =>
    let arr1 := arr.set j (arr.getD i default)
    if ch = '-' then
      asoLoop arr1 (i + 1) j rest
    else if ch = '.' then
      asoLoop arr1 (i + 1) (j + 1) rest
    else
      asoLoop (arr1.set j { arr1.getD j default with val := (ch.toNat : Int) })
        (i + 1) (j + 1) rest

/-- `assign_short_opts(lopts, shortopts)`: run the compaction loop over the
control string (a `NULL` pointer behaves as an empty string), then perform the
final `lopts[j] = lopts[i]` write. -/
def assign_short_opts (lopts : List LOption) (shortopts : Option (List Char)) :
    List LOption :=
  let st := asoLoop lopts 0 0 (shortopts.getD [])
  st.arr.set st.j (st.arr.getD st.i default)

/-- Following the spec's words (spec section 8): the active table left by `Remap`
holds exactly the descriptors not marked `-`, in their original relative order;
at a letter position the kept descriptor's short-form value is that letter, and at
a `.` position the descriptor is kept with its short-form value untouched. -/
def specCompact : List Char → List LOption → List LOption
  | [], _ => []
  | _ :: _, [] => []
  | ch :: rest, e :: l =>
    if ch = '-' then specCompact rest l
    else if ch = '.' then e :: specCompact rest l
    else { e with val := (ch.toNat : Int) } :: specCompact rest l

section ListLemmas

variable {α : Type _}

theorem getD_set_ne (l : List α) (a d : α) :
    ∀ {m k : Nat}, m ≠ k → (l.set m a).getD k d = l.getD k d := by
  induction l with
  | nil => intro m k _; rfl
  | cons x xs ih =>
    intro m k hmk
    cases m with
    | zero =>
      cases k with
      | zero => exact absurd rfl hmk
      | succ k => rfl
    | succ m =>
      cases k with
      | zero => rfl
      | succ k =>
        show (xs.set m a).getD k d = xs.getD k d
        exact ih fun h => hmk (congrArg Nat.succ h)

theorem getD_set_self (l : List α) (a d : α) :
    ∀ {m : Nat}, m < l.length → (l.set m a).getD m d = a := by
  induction l with
  | nil => intro m hm; exact absurd hm (by simp)
  | cons x xs ih =>
    intro m hm
    cases m with
    | zero => rfl
    | succ m =>
      show (xs.set m a).getD m d = a
      exact ih (Nat.lt_of_succ_lt_succ hm)

theorem take_set_self (l : List α) (a : α) : ∀ m : Nat, (l.set m a).take m = l.take m := by
  induction l with
  | nil => intro m; rfl
  | cons x xs ih =>
    intro m
    cases m with
    | zero => rfl
    | succ m =>
      show x :: (xs.set m a).take m = x :: xs.take m
      rw [ih]

theorem take_succ_set (l : List α) (a : α) :
    ∀ {m : Nat}, m < l.length → (l.set m a).take (m + 1) = l.take m ++ [a] := by
  induction l with
  | nil => intro m hm; exact absurd hm (by simp)
  | cons x xs ih =>
    intro m hm
    cases m with
    | zero => rfl
    | succ m =>
      show x :: (xs.set m a).take (m + 1) = x :: (xs.take m ++ [a])
      rw [ih (Nat.lt_of_succ_lt_succ hm)]

theorem drop_getD_cons (l : List α) (d : α) :
    ∀ {m : Nat}, m < l.length → l.drop m = l.getD m d :: l.drop (m + 1) := by
  induction l with
  | nil => intro m hm; exact absurd hm (by simp)
  | cons x xs ih =>
    intro m hm
    cases m with
    | zero => rfl
    | succ m =>
      show xs.drop m = xs.getD m d :: xs.drop (m + 1)
      exact ih (Nat.lt_of_succ_lt_succ hm)

end ListLemmas

theorem specCompact_length (s : List Char) :
    ∀ l : List LOption, s.length ≤ l.length →
      (specCompact s l).length = s.length - s.count '-' := by
  induction s with
  | nil => intro l _; rfl
  | cons ch rest ih =>
    intro l hl
    cases l with
    | nil => simp at hl
    | cons e l =>
      have hrest : rest.length ≤ l.length := by
        simpa using Nat.le_of_succ_le_succ hl
      have hcnt : rest.count '-' ≤ rest.length := List.count_le_length '-' rest
      by_cases h1 : ch = '-'
      · subst h1
        have hu : specCompact ('-' :: rest) (e :: l) = specCompact rest l := by
          simp [specCompact]
        rw [hu, ih l hrest, List.count_cons_self]
        simp only [List.length_cons]
        omega
      · have hcc : ('-' :: rest).count '-' = rest.count '-' + 1 :=
          List.count_cons_self '-' rest
        have hne : ('-' : Char) ≠ ch := fun h => h1 h.symm
        have hcc2 : (ch :: rest).count '-' = rest.count '-' :=
          List.count_cons_of_ne hne rest
        by_cases h2 : ch = '.'
        · subst h2
          have hu : specCompact ('.' :: rest) (e :: l) = e :: specCompact rest l := by
            simp [specCompact]
          rw [hu]
          simp only [List.length_cons]
          rw [ih l hrest, hcc2]
          omega
        · have hu : specCompact (ch :: rest) (e :: l)
              = { e with val := (ch.toNat : Int) } :: specCompact rest l := by
            simp [specCompact, h1, h2]
          rw [hu]
          simp only [List.length_cons]
          rw [ih l hrest, hcc2]
          omega

/-- Main characterisation of the `assign_short_opts` loop.  Starting from any
state whose positions at or beyond the read cursor still hold the original table,
the loop advances `i` once per control character, advances `j` once per
non-`-` character, keeps positions at or beyond the final read cursor untouched,
and extends the written prefix by exactly the compacted descriptors. -/
theorem asoLoop_spec (s : List Char) :
    ∀ (orig arr : List LOption) (i j : Nat),
      arr.length = orig.length →
      j ≤ i →
      i + s.length ≤ orig.length →
      (∀ k, i ≤ k → arr.getD k default = orig.getD k default) →
      (asoLoop arr i j s).arr.length = orig.length
      ∧ (asoLoop arr i j s).i = i + s.length
      ∧ (asoLoop arr i j s).j = j + (s.length - s.count '-')
      ∧ (∀ k, (asoLoop arr i j s).i ≤ k →
          (asoLoop arr i j s).arr.getD k default = orig.getD k default)
      ∧ (asoLoop arr i j s).arr.take (asoLoop arr i j s).j
          = arr.take j ++ specCompact s (orig.drop i) := by
  induction s with
  | nil =>
    intro orig arr i j hlen hij hbound hhi
    refine ⟨hlen, by simp [asoLoop], by simp [asoLoop], ?_, ?_⟩
    · intro k hk; exact hhi k hk
    · simp [asoLoop, specCompact]
  | cons ch rest ih =>
    intro orig arr i j hlen hij hbound hhi
    have hslen : (ch :: rest).length = rest.length + 1 := rfl
    have hi_lt : i < orig.length := by rw [hslen] at hbound; omega
    have hj_lt : j < arr.length := by omega
    have hread : arr.getD i default = orig.getD i default := hhi i (Nat.le_refl i)
    have hdrop : orig.drop i = orig.getD i default :: orig.drop (i + 1) :=
      drop_getD_cons orig default hi_lt
    -- the unconditional copy lopts[j] = lopts[i]
    set arr1 := arr.set j (arr.getD i default) with harr1
    have hlen1 : arr1.length = orig.length := by
      rw [harr1, List.length_set]; exact hlen
    have hhi1 : ∀ k, i + 1 ≤ k → arr1.getD k default = orig.getD k default := by
      intro k hk
      rw [harr1, getD_set_ne]
      · exact hhi k (by omega)
      · omega
    have htake1 : arr1.take j = arr.take j := take_set_self arr _ j
    have hcnt : rest.count '-' ≤ rest.length := List.count_le_length '-' rest
    by_cases h1 : ch = '-'
    · subst h1
      have hstep : asoLoop arr i j ('-' :: rest) = asoLoop arr1 (i + 1) j rest := by
        simp [asoLoop, harr1]
      rw [hstep]
      obtain ⟨g1, g2, g3, g4, g5⟩ :=
        ih orig arr1 (i + 1) j hlen1 (by omega) (by rw [hslen] at hbound; omega) hhi1
      refine ⟨g1, by rw [g2, hslen]; omega, ?_, g4, ?_⟩
      · rw [g3, List.count_cons_self, hslen]
        omega
      · rw [g5, htake1, hdrop]
        simp [specCompact]
    · by_cases h2 : ch = '.'
      · subst h2
        have hstep : asoLoop arr i j ('.' :: rest) = asoLoop arr1 (i + 1) (j + 1) rest := by
          simp [asoLoop, harr1]
        rw [hstep]
        obtain ⟨g1, g2, g3, g4, g5⟩ :=
          ih orig arr1 (i + 1) (j + 1) hlen1 (by omega) (by rw [hslen] at hbound; omega) hhi1
        have hcc : ('.' :: rest).count '-' = rest.count '-' :=
          List.count_cons_of_ne (by decide) rest
        refine ⟨g1, by rw [g2, hslen]; omega, ?_, g4, ?_⟩
        · rw [g3, hcc, hslen]
          omega
        · rw [g5, hdrop]
          have htk : arr1.take (j + 1) = arr.take j ++ [orig.getD i default] := by
            rw [harr1, take_succ_set arr _ hj_lt, hread]
          rw [htk]
          have hsc : specCompact ('.' :: rest) (orig.getD i default :: orig.drop (i + 1))
              = orig.getD i default :: specCompact rest (orig.drop (i + 1)) := by
            simp [specCompact]
          rw [hsc]
          simp [List.append_assoc]
      · -- a letter: the copied entry additionally gets its val set
        have hj_lt1 : j < arr1.length := by rw [hlen1]; omega
        have hget1 : arr1.getD j default = orig.getD i default := by
          rw [harr1, getD_set_self arr _ _ hj_lt, hread]
        have hstep : asoLoop arr i j (ch :: rest)
            = asoLoop (arr1.set j { orig.getD i default with val := (ch.toNat : Int) })
                (i + 1) (j + 1) rest := by
          simp only [asoLoop, if_neg h1, if_neg h2, ← harr1, hget1]
        have hlen2 : (arr1.set j { orig.getD i default with
            val := (ch.toNat : Int) }).length = orig.length := by
          rw [List.length_set]; exact hlen1
        have hhi2 : ∀ k, i + 1 ≤ k →
            (arr1.set j { orig.getD i default with val := (ch.toNat : Int) }).getD k default
              = orig.getD k default := by
          intro k hk
          rw [getD_set_ne]
          · exact hhi1 k hk
          · omega
        rw [hstep]
        obtain ⟨g1, g2, g3, g4, g5⟩ :=
          ih orig (arr1.set j { orig.getD i default with val := (ch.toNat : Int) })
            (i + 1) (j + 1) hlen2 (by omega) (by rw [hslen] at hbound; omega) hhi2
        have hne : ('-' : Char) ≠ ch := fun h => h1 h.symm
        have hcc : (ch :: rest).count '-' = rest.count '-' :=
          List.count_cons_of_ne hne rest
        refine ⟨g1, by rw [g2, hslen]; omega, ?_, g4, ?_⟩
        · rw [g3, hcc, hslen]
          omega
        · rw [g5, hdrop]
          have htk : (arr1.set j { orig.getD i default with
              val := (ch.toNat : Int) }).take (j + 1)
              = arr.take j ++ [{ orig.getD i default with val := (ch.toNat : Int) }] := by
            rw [take_succ_set arr1 _ hj_lt1, htake1]
          rw [htk]
          have hsc : specCompact (ch :: rest) (orig.getD i default :: orig.drop (i + 1))
              = { orig.getD i default with val := (ch.toNat : Int) }
                  :: specCompact rest (orig.drop (i + 1)) := by
            simp [specCompact, h1, h2]
          rw [hsc]
          simp [List.append_assoc]

/-- Modelled from the spec: the canonical global option table `SAM_GLOBAL_LOPTS_INIT`
is defined in `sam_opts.h`, which is not among the provided sources.  Per spec
sections 4 and 6 it holds the five global long options in this order, each taking
an argument except `verbose`, followed by the all-zero terminating sentinel; the
`val` codes are distinct placeholder codes assigned before any remapping. -/
def SAM_GLOBAL_LOPTS_INIT : List LOption :=
  [⟨some "input-fmt", 1, 1⟩,
   ⟨some "input-fmt-option", 1, 2⟩,
   ⟨some "output-fmt", 1, 3⟩,
   ⟨some "output-fmt-option", 1, 4⟩,
   ⟨some "verbose", 0, 5⟩,
   ⟨none, 0, 0⟩]

/-- Unconditional loop invariant of `assign_short_opts`: the write cursor never
exceeds the read cursor, and every position at or beyond the read cursor still
holds its original descriptor. -/
theorem asoLoop_inv (s : List Char) :
    ∀ (orig arr : List LOption) (i j : Nat),
      j ≤ i →
      (∀ k, i ≤ k → arr.getD k default = orig.getD k default) →
      (asoLoop arr i j s).j ≤ (asoLoop arr i j s).i
      ∧ ∀ k, (asoLoop arr i j s).i ≤ k →
          (asoLoop arr i j s).arr.getD k default = orig.getD k default := by
  induction s with
  | nil =>
    intro orig arr i j hij hhi
    exact ⟨hij, hhi⟩
  | cons ch rest ih =>
    intro orig arr i j hij hhi
    have hhi1 : ∀ k, i + 1 ≤ k →
        (arr.set j (arr.getD i default)).getD k default = orig.getD k default := by
      intro k hk
      rw [getD_set_ne]
      · exact hhi k (by omega)
      · omega
    by_cases h1 : ch = '-'
    · subst h1
      have hstep : asoLoop arr i j ('-' :: rest)
          = asoLoop (arr.set j (arr.getD i default)) (i + 1) j rest := by
        simp [asoLoop]
      rw [hstep]
      exact ih orig _ (i + 1) j (by omega) hhi1
    · by_cases h2 : ch = '.'
      · subst h2
        have hstep : asoLoop arr i j ('.' :: rest)
            = asoLoop (arr.set j (arr.getD i default)) (i + 1) (j + 1) rest := by
          simp [asoLoop]
        rw [hstep]
        exact ih orig _ (i + 1) (j + 1) (by omega) hhi1
      · have hstep : asoLoop arr i j (ch :: rest)
            = asoLoop ((arr.set j (arr.getD i default)).set j
                { (arr.set j (arr.getD i default)).getD j default with
                  val := (ch.toNat : Int) })
                (i + 1) (j + 1) rest := by
          simp only [asoLoop, if_neg h1, if_neg h2]
        rw [hstep]
        refine ih orig _ (i + 1) (j + 1) (by omega) ?_
        intro k hk
        rw [getD_set_ne]
        · exact hhi1 k hk
        · omega

/-- C1: for a control string no longer than the table, made of `.`, `-` and
distinct letters, `assign_short_opts` leaves an active table (the compacted
prefix, that is the first `|s| - count('-', s)` entries, per spec section 4) equal
to exactly the descriptors not marked `-`, in their original relative order, with
the short-form value set to the letter at letter positions and left untouched at
`.` positions; `-` descriptors are absent from it. -/
theorem C1_remap_active_table (lopts : List LOption) (s : List Char)
    (hlen : s.length ≤ lopts.length)
    (hchars : ∀ ch ∈ s, ch = '.' ∨ ch = '-' ∨ ch.isAlpha)
    (hletters : (s.filter fun ch => ch != '.' && ch != '-').Nodup) :
    (assign_short_opts lopts (some s)).take (s.length - s.count '-')
      = specCompact s lopts
    ∧ (specCompact s lopts).length = s.length - s.count '-' := by
  obtain ⟨g1, g2, g3, g4, g5⟩ := asoLoop_spec s lopts lopts 0 0 rfl (Nat.le_refl 0)
    (by omega) (fun _ _ => rfl)
  have hj : (asoLoop lopts 0 0 s).j = s.length - s.count '-' := by rw [g3]; omega
  refine ⟨?_, specCompact_length s lopts hlen⟩
  show ((asoLoop lopts 0 0 s).arr.set (asoLoop lopts 0 0 s).j
      ((asoLoop lopts 0 0 s).arr.getD (asoLoop lopts 0 0 s).i default)).take
      (s.length - s.count '-') = specCompact s lopts
  rw [← hj, take_set_self, g5]
  simp

/-- C1 witness: a concrete run on the canonical table with control string
`"i-."`. -/
theorem C1_remap_active_table_witness :
    (['i', '-', '.'].length ≤ SAM_GLOBAL_LOPTS_INIT.length
      ∧ (∀ ch ∈ ['i', '-', '.'], ch = '.' ∨ ch = '-' ∨ ch.isAlpha)
      ∧ ((['i', '-', '.'].filter fun ch => ch != '.' && ch != '-').Nodup))
    ∧ ((assign_short_opts SAM_GLOBAL_LOPTS_INIT (some ['i', '-', '.'])).take
        (['i', '-', '.'].length - ['i', '-', '.'].count '-')
      = specCompact ['i', '-', '.'] SAM_GLOBAL_LOPTS_INIT
      ∧ (specCompact ['i', '-', '.'] SAM_GLOBAL_LOPTS_INIT).length
          = ['i', '-', '.'].length - ['i', '-', '.'].count '-') :=
  ⟨⟨by decide, by decide, by decide⟩,
    C1_remap_active_table SAM_GLOBAL_LOPTS_INIT ['i', '-', '.']
      (by decide) (by decide) (by decide)⟩

/-- C2 counterexample: with the table `[input-fmt, sentinel]` and the empty
control string (allowed by the claim), zero entries are kept, so the position
immediately after the last kept entry is position 0; but `assign_short_opts`
leaves the original `input-fmt` descriptor there, not a terminating sentinel,
because the final write copies `lopts[0]` onto itself. -/
theorem C2_counterexample :
    ((assign_short_opts [⟨some "input-fmt", 1, 1⟩, ⟨none, 0, 0⟩] (some [])).getD 0
        default).name ≠ none := by
  decide

/-- C2 (amended): the final write of `assign_short_opts` places a copy of the
entry at index `|s|` (one past the control string) at the position immediately
after the last kept entry; this is the terminating "no more options" sentinel
precisely when that entry is the sentinel, i.e. when the control string covers
every active descriptor (one character per option, as the code's comment
requires).  An absent control string behaves exactly like the empty one, for
which the kept prefix is empty and position 0 receives the copy of entry 0. -/
theorem C2_amended_sentinel (lopts : List LOption) (s : List Char)
    (hlen : s.length < lopts.length)
    (hsent : (lopts.getD s.length default).name = none) :
    assign_short_opts lopts none = assign_short_opts lopts (some [])
    ∧ (assign_short_opts lopts (some s)).getD (s.length - s.count '-') default
        = lopts.getD s.length default
    ∧ ((assign_short_opts lopts (some s)).getD (s.length - s.count '-')
        default).name = none := by
  obtain ⟨g1, g2, g3, g4, g5⟩ := asoLoop_spec s lopts lopts 0 0 rfl (Nat.le_refl 0)
    (by omega) (fun _ _ => rfl)
  have hj : (asoLoop lopts 0 0 s).j = s.length - s.count '-' := by rw [g3]; omega
  have hi : (asoLoop lopts 0 0 s).i = s.length := by rw [g2]; omega
  have hjlt : (asoLoop lopts 0 0 s).j < (asoLoop lopts 0 0 s).arr.length := by
    rw [g1, hj]
    have := List.count_le_length '-' s
    omega
  have hcore : (assign_short_opts lopts (some s)).getD (s.length - s.count '-')
      default = lopts.getD s.length default := by
    show ((asoLoop lopts 0 0 s).arr.set (asoLoop lopts 0 0 s).j
        ((asoLoop lopts 0 0 s).arr.getD (asoLoop lopts 0 0 s).i default)).getD
        (s.length - s.count '-') default = _
    rw [← hj, getD_set_self _ _ _ hjlt,
      g4 (asoLoop lopts 0 0 s).i (Nat.le_refl _), hi]
  exact ⟨rfl, hcore, by rw [hcore]; exact hsent⟩

/-- C2 witness: the canonical table with a full-length control string, whose
one-past-the-end entry is the sentinel. -/
theorem C2_amended_sentinel_witness :
    (['i', '.', 'O', '.', 'v'].length < SAM_GLOBAL_LOPTS_INIT.length
      ∧ (SAM_GLOBAL_LOPTS_INIT.getD ['i', '.', 'O', '.', 'v'].length default).name
          = none)
    ∧ ((assign_short_opts SAM_GLOBAL_LOPTS_INIT
        (some ['i', '.', 'O', '.', 'v'])).getD
        (['i', '.', 'O', '.', 'v'].length - ['i', '.', 'O', '.', 'v'].count '-')
        default).name = none :=
  ⟨⟨by decide, by decide⟩,
    (C2_amended_sentinel SAM_GLOBAL_LOPTS_INIT ['i', '.', 'O', '.', 'v']
      (by decide) (by decide)).2.2⟩

/-- C10: throughout the `assign_short_opts` loop (after any number `t` of
iterations) the write cursor `j` never exceeds the read cursor `i`, and every
position at or beyond `i` still holds its original descriptor; hence the copy
`lopts[j] = lopts[i]` performed next always reads the original, not yet
overwritten, descriptor at position `i`. -/
theorem C10_write_cursor_invariant (lopts : List LOption) (s : List Char)
    (t : Nat) :
    (asoLoop lopts 0 0 (s.take t)).j ≤ (asoLoop lopts 0 0 (s.take t)).i
    ∧ ∀ k, (asoLoop lopts 0 0 (s.take t)).i ≤ k →
        (asoLoop lopts 0 0 (s.take t)).arr.getD k default
          = lopts.getD k default :=
  asoLoop_inv (s.take t) lopts lopts 0 0 (Nat.le_refl 0) (fun _ _ => rfl)

/-- C10 witness: after two iterations on the canonical table with control
string `"i-."`, the cursors satisfy `j ≤ i` and position 2 (the next read
position) still holds the original descriptor. -/
theorem C10_write_cursor_invariant_witness :
    (asoLoop SAM_GLOBAL_LOPTS_INIT 0 0 (['i', '-', '.'].take 2)).j
      ≤ (asoLoop SAM_GLOBAL_LOPTS_INIT 0 0 (['i', '-', '.'].take 2)).i
    ∧ (asoLoop SAM_GLOBAL_LOPTS_INIT 0 0 (['i', '-', '.'].take 2)).arr.getD 2
        default = SAM_GLOBAL_LOPTS_INIT.getD 2 default :=
  ⟨(C10_write_cursor_invariant SAM_GLOBAL_LOPTS_INIT ['i', '-', '.'] 2).1,
    (C10_write_cursor_invariant SAM_GLOBAL_LOPTS_INIT ['i', '-', '.'] 2).2 2
      (by decide)⟩

/-- A single format option held in an `hts_opt` list entry: a `KEY` with an
optional `VALUE`. -/
structure HtsFmtOpt where
  key : String
  value : Option String
deriving DecidableEq, Repr

/-- A format specification (`ga->in` / `ga->out`): the parsed format plus its
list of format options (`opts`).  `fmt = none` is the zero-initialised state. -/
structure HtsFormat where
  fmt : Option String
  opts : List HtsFmtOpt
deriving DecidableEq, Repr

/-- `sam_global_args`: the shared settings structure.  `in_fmt` and `out_fmt`
model the C fields `in` and `out` (`in` is a reserved word in Lean). -/
structure SamGlobalArgs where
  in_fmt : HtsFormat
  out_fmt : HtsFormat
  verbosity : Int
deriving DecidableEq, Repr

/-- The all-zero settings value produced by `memset(ga, 0, sizeof(*ga))`. -/
def zeroArgs : SamGlobalArgs := ⟨⟨none, []⟩, ⟨none, []⟩, 0⟩

/-- A diagnostic written to `stderr`: the `fprintf` format string together with
the pointer passed for its `%s` conversion (`none` models a `NULL` `char *`,
whose rendering by `%s` is undefined behaviour in C). -/
structure Diag where
  fmt : String
  arg : Option String
deriving DecidableEq, Repr

/-- Modelled from the spec: `hts_parse_opt_format` is an external htslib
collaborator (`ParseFormatSpec`, spec section 6), not among the provided
sources.  It parses the argument as a format specification, stores it into the
target, and propagates success/failure; modelled as always succeeding with the
argument recorded as the format. -/
def hts_parse_opt_format (f : HtsFormat) (arg : String) : Int × HtsFormat :=
  (0, { f with fmt := some arg })

/-- Modelled from the spec: `hts_opt_add` is an external htslib collaborator
(`AddFormatOption`, spec section 6), not among the provided sources.  It parses
the argument as a single `KEY` or `KEY=VALUE` token, appends it to the option
list, and propagates success/failure; modelled as always succeeding. -/
def hts_opt_add (opts : List HtsFmtOpt) (arg : String) : Int × List HtsFmtOpt :=
  let cs := arg.data
  let key : String := ⟨cs.takeWhile (fun ch => ch ≠ '=')⟩
  let value : Option String :=
    match cs.dropWhile (fun ch => ch ≠ '=') with
    | [] => none
    | _ :: vs => some ⟨vs⟩
  (0, opts ++ [⟨key, value⟩])

/-- The matched-entry body of `parse_sam_global_opt`: the `strcmp` chain over the
five global option names, applied once the scanned code has matched the entry.
Returns `none` when no branch fires (an entry whose name is not one of the five),
in which case the C loop falls through without advancing `lopt`. -/
def applyOpt (name : String) (optarg : String) (ga : SamGlobalArgs) :
    Option (Int × SamGlobalArgs) :=
  if name = "input-fmt" then
    let r := hts_parse_opt_format ga.in_fmt optarg
    some (r.1, { ga with in_fmt := r.2 })
  else if name = "input-fmt-option" then
    let r := hts_opt_add ga.in_fmt.opts optarg
    some (r.1, { ga with in_fmt := { ga.in_fmt with opts := r.2 } })
  else if name = "output-fmt" then
    let r := hts_parse_opt_format ga.out_fmt optarg
    some (r.1, { ga with out_fmt := r.2 })
  else if name = "output-fmt-option" then
    let r := hts_opt_add ga.out_fmt.opts optarg
    some (r.1, { ga with out_fmt := { ga.out_fmt with opts := r.2 } })
  else if name = "verbose" then
    some (0, { ga with verbosity := ga.verbosity + 1 })
  else
    none

/-- The `while (lopt->name)` loop of `parse_sam_global_opt`, with explicit fuel.
One unit of fuel is spent per executed iteration, so `none` means the loop has
not finished within the given fuel (for good tables one pass, `length + 1`
units, always suffices; see `C4`).  The result carries the return value, the
settings, and the diagnostic written to `stderr`, if any:
* reaching the sentinel (`lopt->name == NULL`) exits the loop; the code then
  prints `"Unexpected global option: %s\n"` passing `lopt->name` — which this
  very branch just established is `NULL` — and returns `-1`;
* a non-matching code advances `lopt`;
* a matching code runs the `strcmp` chain; if a branch fires the loop breaks
  and the branch's result is returned, otherwise the loop repeats with `lopt`
  unchanged.
Walking past the end of a table with no sentinel is undefined behaviour in C and
is modelled as `none` as well. -/
def parse_loop (c : Int) (optarg : String) :
    Nat → List LOption → SamGlobalArgs → Option (Int × SamGlobalArgs × Option Diag)
  | 0, _, _ => none
  | _ + 1, [], _ => none
  | fuel + 1, e :: rest, ga =>
    match e.name with
    | none => some (-1, ga, some ⟨"Unexpected global option: %s\n", none⟩)
    | some nm =>
      if c = e.val then
        match applyOpt nm optarg ga with
        | some r => some (r.1, r.2, none)
        | none => parse_loop c optarg fuel (e :: rest) ga
      else
        parse_loop c optarg fuel rest ga

/-- `parse_sam_global_opt(c, optarg, lopt, ga)`.  A terminating run of the C
loop executes at most `lopt.length + 1` iterations (each iteration either
advances the cursor, exits, or — for a matched entry with an unknown name —
repeats forever), so that fuel captures every terminating behaviour. -/
def parse_sam_global_opt (c : Int) (optarg : String) (lopt : List LOption)
    (ga : SamGlobalArgs) : Option (Int × SamGlobalArgs × Option Diag) :=
  parse_loop c optarg (lopt.length + 1) lopt ga

/-- `sam_global_args_init(ga)`: a `NULL` pointer is left untouched, otherwise
the structure is zeroed wholesale by `memset`. -/
def sam_global_args_init (ga : Option SamGlobalArgs) : Option SamGlobalArgs :=
  match ga with
  | none => none
  | some _ => some zeroArgs

/-- `sam_global_args_free(ga)`: releases the owned option lists of both format
specs via the external `hts_opt_free` (the freed lists are dropped from the
model state). -/
def sam_global_args_free (ga : SamGlobalArgs) : SamGlobalArgs :=
  { ga with in_fmt := { ga.in_fmt with opts := [] },
            out_fmt := { ga.out_fmt with opts := [] } }

/-- The per-option description block printed by `sam_global_opt_help` for a
given long-option name: the `strcmp` chain selecting one fixed `fprintf` string.
A name outside the five known ones prints nothing; a `NULL` name would be
undefined behaviour in the C `strcmp` and prints nothing in the model. -/
def helpBody (name : Option String) : List String :=
  match name with
  | none => []
  | some nm =>
    if nm = "input-fmt" then
      ["input-fmt FORMAT[,OPT[=VAL]]...\n               Specify input format (SAM, BAM, CRAM)\n"]
    else if nm = "input-fmt-option" then
      ["input-fmt-option OPT[=VAL]\n               Specify a single input file format option in the form\n               of OPTION or OPTION=VALUE\n"]
    else if nm = "output-fmt" then
      ["output-fmt FORMAT[,OPT[=VAL]]...\n               Specify output format (SAM, BAM, CRAM)\n"]
    else if nm = "output-fmt-option" then
      ["output-fmt-option OPT[=VAL]\n               Specify a single output file format option in the form\n               of OPTION or OPTION=VALUE\n"]
    else if nm = "verbose" then
      ["verbose\n               Increment level of verbosity\n"]
    else []

/-- The header `fprintf` of one help entry: long-option-only for `.`, otherwise
the short+long form `"  -%c, --"`. -/
def helpHeader (ch : Char) : String :=
  if ch = '.' then "      --" else "  -" ++ String.singleton ch ++ ", --"

/-- The `for` loop of `sam_global_opt_help`: runs while control characters
remain and `i < nopts`, skipping `-` entries and emitting a header plus the
per-option block otherwise.  The output is the ordered list of `fprintf`
writes to the sink. -/
def helpLoop (lopts : List LOption) (nopts : Nat) : List Char → Nat → List String
  | [], _ => []
  | ch :: rest, i =>
    if i < nopts then
      if ch = '-' then helpLoop lopts nopts rest (i + 1)
      else helpHeader ch :: (helpBody (lopts.getD i default).name
        ++ helpLoop lopts nopts rest (i + 1))
    else []

/-- `sam_global_opt_help(fp, shortopts)`: iterates over the canonical table
(declared locally from `SAM_GLOBAL_LOPTS_INIT`, with `nopts` its full element
count including the sentinel, per `sizeof`), returning the sequence of strings
written to `fp`. -/
def sam_global_opt_help (shortopts : Option (List Char)) : List String :=
  helpLoop SAM_GLOBAL_LOPTS_INIT SAM_GLOBAL_LOPTS_INIT.length (shortopts.getD []) 0

/-- C8: on control string `"-.x"` the help routine emits exactly two help
blocks — the disabled first entry is skipped — in original table order: the
second entry (`input-fmt-option`) with a long-option-only header, and the third
(`output-fmt`) with short form `x`. -/
theorem C8_help_blocks :
    sam_global_opt_help (some ['-', '.', 'x'])
      = ["      --",
         "input-fmt-option OPT[=VAL]\n               Specify a single input file format option in the form\n               of OPTION or OPTION=VALUE\n",
         "  -x, --",
         "output-fmt FORMAT[,OPT[=VAL]]...\n               Specify output format (SAM, BAM, CRAM)\n"] := by
  decide

/-- C9: `sam_global_args_init` leaves a `NULL` settings pointer untouched and
zeroes every field (both format specs, their option lists, and the verbosity
counter) of a valid settings instance. -/
theorem C9_init_zeroes (ga : SamGlobalArgs) :
    sam_global_args_init none = none
    ∧ sam_global_args_init (some ga) = some zeroArgs
    ∧ zeroArgs.in_fmt.fmt = none ∧ zeroArgs.in_fmt.opts = []
    ∧ zeroArgs.out_fmt.fmt = none ∧ zeroArgs.out_fmt.opts = []
    ∧ zeroArgs.verbosity = 0 :=
  ⟨rfl, rfl, rfl, rfl, rfl, rfl, rfl⟩

/-- One skipped iteration of the dispatch loop: a named entry whose code does
not match advances the cursor and spends one unit of fuel. -/
theorem parse_loop_skip (c : Int) (a : String) (fuel : Nat) (e : LOption)
    (rest : List LOption) (ga : SamGlobalArgs) (nm : String)
    (hname : e.name = some nm) (hne : c ≠ e.val) :
    parse_loop c a (fuel + 1) (e :: rest) ga = parse_loop c a fuel rest ga := by
  simp [parse_loop, hname, hne]

/-- C3: dispatching a code that matches no table entry returns `-1`, leaves the
settings entirely unmodified, and emits only the diagnostic (whose `%s`
argument is the `NULL` sentinel name; see C5). -/
theorem C3_no_match_unchanged (c : Int) (optarg : String) (lopts : List LOption)
    (ga : SamGlobalArgs)
    (hsent : ∃ e ∈ lopts, e.name = none)
    (hnoval : ∀ e ∈ lopts, e.val ≠ c) :
    parse_sam_global_opt c optarg lopts ga
      = some (-1, ga, some ⟨"Unexpected global option: %s\n", none⟩) := by
  induction lopts with
  | nil =>
    obtain ⟨e, he, _⟩ := hsent
    exact absurd he (List.not_mem_nil e)
  | cons e rest ih =>
    show parse_loop c optarg (rest.length + 1 + 1) (e :: rest) ga = _
    cases hn : e.name with
    | none => simp [parse_loop, hn]
    | some nm =>
      have hvne : c ≠ e.val := fun h => hnoval e (List.mem_cons_self e rest) h.symm
      rw [parse_loop_skip c optarg (rest.length + 1) e rest ga nm hn hvne]
      apply ih
      · obtain ⟨e0, he0, hname0⟩ := hsent
        rcases List.mem_cons.mp he0 with h | h
        · rw [h, hn] at hname0
          exact absurd hname0 (by simp)
        · exact ⟨e0, h, hname0⟩
      · intro x hx
        exact hnoval x (List.mem_cons_of_mem e hx)

/-- C3 witness: code 42 matches nothing in the canonical table. -/
theorem C3_no_match_unchanged_witness :
    ((∃ e ∈ SAM_GLOBAL_LOPTS_INIT, e.name = none)
      ∧ ∀ e ∈ SAM_GLOBAL_LOPTS_INIT, e.val ≠ 42)
    ∧ parse_sam_global_opt 42 "bam" SAM_GLOBAL_LOPTS_INIT zeroArgs
        = some (-1, zeroArgs, some ⟨"Unexpected global option: %s\n", none⟩) :=
  ⟨⟨by decide, by decide⟩,
    C3_no_match_unchanged 42 "bam" SAM_GLOBAL_LOPTS_INIT zeroArgs
      (by decide) (by decide)⟩

/-- C5: at a failing lookup (here code 99 against the canonical table), the
diagnostic the code emits is `"Unexpected global option: %s\n"` with the `%s`
argument being `lopt->name` — which the guard on this path has just established
is the `NULL` sentinel name.  The message therefore carries no information about
the option whose lookup failed (rendering a `NULL` via `%s` is undefined
behaviour; glibc prints `(null)`), contradicting the claim that it names the
failing lookup. -/
theorem C5_diag_names_nothing :
    parse_sam_global_opt 99 "level=9" SAM_GLOBAL_LOPTS_INIT zeroArgs
      = some (-1, zeroArgs, some ⟨"Unexpected global option: %s\n", none⟩) := by
  decide

/-- The dispatch loop finds the first entry whose code matches; entries before
it (named, non-matching) are skipped, and the matched entry's `strcmp` branch
result is returned with no diagnostic. -/
theorem parse_first_match (c : Int) (a : String) (v : LOption) (nm : String)
    (r : Int) (ga ga2 : SamGlobalArgs)
    (hname : v.name = some nm) (hval : v.val = c)
    (happ : applyOpt nm a ga = some (r, ga2)) :
    ∀ pre : List LOption, (∀ e ∈ pre, e.name ≠ none ∧ e.val ≠ c) →
      ∀ post : List LOption,
        parse_sam_global_opt c a (pre ++ v :: post) ga = some (r, ga2, none) := by
  intro pre
  induction pre with
  | nil =>
    intro _ post
    show parse_loop c a ((v :: post).length + 1) (v :: post) ga = _
    simp [parse_loop, hname, hval, happ]
  | cons e pre ih =>
    intro hpre post
    obtain ⟨hen, hev⟩ := hpre e (List.mem_cons_self e pre)
    cases hnm : e.name with
    | none => exact absurd hnm hen
    | some nm0 =>
      have hvne : c ≠ e.val := fun h => hev h.symm
      show parse_loop c a ((pre ++ v :: post).length + 1 + 1)
        (e :: (pre ++ v :: post)) ga = _
      rw [parse_loop_skip c a ((pre ++ v :: post).length + 1) e (pre ++ v :: post)
        ga nm0 hnm hvne]
      exact ih (fun x hx => hpre x (List.mem_cons_of_mem e hx)) post

/-- C6: dispatching the code assigned to `verbose` three times in a row returns
success (0) each time, leaves no diagnostic, and the three calls increment the
verbosity counter by exactly one each, hence by exactly 3 in total. -/
theorem C6_verbose_three_increments (c : Int) (a : String) (pre post : List LOption)
    (v : LOption) (ga : SamGlobalArgs)
    (hpre : ∀ e ∈ pre, e.name ≠ none ∧ e.val ≠ c)
    (hname : v.name = some "verbose") (hval : v.val = c) :
    ∃ ga1 ga2 ga3 : SamGlobalArgs,
      parse_sam_global_opt c a (pre ++ v :: post) ga = some (0, ga1, none)
      ∧ parse_sam_global_opt c a (pre ++ v :: post) ga1 = some (0, ga2, none)
      ∧ parse_sam_global_opt c a (pre ++ v :: post) ga2 = some (0, ga3, none)
      ∧ ga1.verbosity = ga.verbosity + 1
      ∧ ga2.verbosity = ga.verbosity + 2
      ∧ ga3.verbosity = ga.verbosity + 3 := by
  refine ⟨{ ga with verbosity := ga.verbosity + 1 },
    { ga with verbosity := ga.verbosity + 1 + 1 },
    { ga with verbosity := ga.verbosity + 1 + 1 + 1 }, ?_, ?_, ?_, ?_, ?_, ?_⟩
  · exact parse_first_match c a v "verbose" 0 ga _ hname hval rfl pre hpre post
  · exact parse_first_match c a v "verbose" 0 _ _ hname hval rfl pre hpre post
  · exact parse_first_match c a v "verbose" 0 _ _ hname hval rfl pre hpre post
  · show ga.verbosity + 1 = ga.verbosity + 1
    rfl
  · show ga.verbosity + 1 + 1 = ga.verbosity + 2
    omega
  · show ga.verbosity + 1 + 1 + 1 = ga.verbosity + 3
    omega

/-- C6 witness: the canonical table, whose `verbose` entry carries code 5. -/
theorem C6_verbose_three_increments_witness :
    ((∀ e ∈ [(⟨some "input-fmt", 1, 1⟩ : LOption), ⟨some "input-fmt-option", 1, 2⟩,
        ⟨some "output-fmt", 1, 3⟩, ⟨some "output-fmt-option", 1, 4⟩],
          e.name ≠ none ∧ e.val ≠ 5)
      ∧ (⟨some "verbose", 0, 5⟩ : LOption).name = some "verbose"
      ∧ (⟨some "verbose", 0, 5⟩ : LOption).val = 5)
    ∧ ∃ ga1 ga2 ga3 : SamGlobalArgs,
      parse_sam_global_opt 5 ""
          ([⟨some "input-fmt", 1, 1⟩, ⟨some "input-fmt-option", 1, 2⟩,
            ⟨some "output-fmt", 1, 3⟩, ⟨some "output-fmt-option", 1, 4⟩]
            ++ ⟨some "verbose", 0, 5⟩ :: [⟨none, 0, 0⟩]) zeroArgs
        = some (0, ga1, none)
      ∧ parse_sam_global_opt 5 ""
          ([⟨some "input-fmt", 1, 1⟩, ⟨some "input-fmt-option", 1, 2⟩,
            ⟨some "output-fmt", 1, 3⟩, ⟨some "output-fmt-option", 1, 4⟩]
            ++ ⟨some "verbose", 0, 5⟩ :: [⟨none, 0, 0⟩]) ga1
        = some (0, ga2, none)
      ∧ parse_sam_global_opt 5 ""
          ([⟨some "input-fmt", 1, 1⟩, ⟨some "input-fmt-option", 1, 2⟩,
            ⟨some "output-fmt", 1, 3⟩, ⟨some "output-fmt-option", 1, 4⟩]
            ++ ⟨some "verbose", 0, 5⟩ :: [⟨none, 0, 0⟩]) ga2
        = some (0, ga3, none)
      ∧ ga1.verbosity = zeroArgs.verbosity + 1
      ∧ ga2.verbosity = zeroArgs.verbosity + 2
      ∧ ga3.verbosity = zeroArgs.verbosity + 3 :=
  ⟨⟨by decide, rfl, rfl⟩,
    C6_verbose_three_increments 5 ""
      [⟨some "input-fmt", 1, 1⟩, ⟨some "input-fmt-option", 1, 2⟩,
        ⟨some "output-fmt", 1, 3⟩, ⟨some "output-fmt-option", 1, 4⟩]
      [⟨none, 0, 0⟩] ⟨some "verbose", 0, 5⟩ zeroArgs (by decide) rfl rfl⟩

/-- C7: dispatching a code matching `input-fmt-option` with argument
`"nthreads=4"` succeeds and appends exactly the option `nthreads`=`"4"` to the
input format's option list, while the input format spec itself, every
previously appended input-format option, the entire output format spec, and the
verbosity counter are left unchanged. -/
theorem C7_input_fmt_option_append (c : Int) (pre post : List LOption)
    (v : LOption) (ga : SamGlobalArgs)
    (hpre : ∀ e ∈ pre, e.name ≠ none ∧ e.val ≠ c)
    (hname : v.name = some "input-fmt-option") (hval : v.val = c) :
    parse_sam_global_opt c "nthreads=4" (pre ++ v :: post) ga
      = some (0,
          ⟨⟨ga.in_fmt.fmt, ga.in_fmt.opts ++ [⟨"nthreads", some "4"⟩]⟩,
            ga.out_fmt, ga.verbosity⟩,
          none) := by
  have happ : applyOpt "input-fmt-option" "nthreads=4" ga
      = some (0, ⟨⟨ga.in_fmt.fmt, ga.in_fmt.opts ++ [⟨"nthreads", some "4"⟩]⟩,
          ga.out_fmt, ga.verbosity⟩) := rfl
  exact parse_first_match c "nthreads=4" v "input-fmt-option" 0 ga
    ⟨⟨ga.in_fmt.fmt, ga.in_fmt.opts ++ [⟨"nthreads", some "4"⟩]⟩,
      ga.out_fmt, ga.verbosity⟩
    hname hval happ pre hpre post

/-- C7 witness: a concrete table whose `input-fmt-option` entry carries code 2,
starting from zeroed settings. -/
theorem C7_input_fmt_option_append_witness :
    ((∀ e ∈ [(⟨some "input-fmt", 1, 1⟩ : LOption)], e.name ≠ none ∧ e.val ≠ 2)
      ∧ (⟨some "input-fmt-option", 1, 2⟩ : LOption).name = some "input-fmt-option"
      ∧ (⟨some "input-fmt-option", 1, 2⟩ : LOption).val = 2)
    ∧ parse_sam_global_opt 2 "nthreads=4"
        ([(⟨some "input-fmt", 1, 1⟩ : LOption)] ++ ⟨some "input-fmt-option", 1, 2⟩ ::
          [⟨some "verbose", 0, 5⟩, ⟨none, 0, 0⟩]) zeroArgs
      = some (0,
          ⟨⟨zeroArgs.in_fmt.fmt, zeroArgs.in_fmt.opts ++ [⟨"nthreads", some "4"⟩]⟩,
            zeroArgs.out_fmt, zeroArgs.verbosity⟩, none) :=
  ⟨⟨by decide, rfl, rfl⟩,
    C7_input_fmt_option_append 2 [⟨some "input-fmt", 1, 1⟩]
      [⟨some "verbose", 0, 5⟩, ⟨none, 0, 0⟩] ⟨some "input-fmt-option", 1, 2⟩
      zeroArgs (by decide) rfl rfl⟩

theorem asoLoop_length (s : List Char) :
    ∀ (arr : List LOption) (i j : Nat),
      (asoLoop arr i j s).arr.length = arr.length := by
  induction s with
  | nil => intro arr i j; rfl
  | cons ch rest ih =>
    intro arr i j
    by_cases h1 : ch = '-'
    · subst h1
      have hstep : asoLoop arr i j ('-' :: rest)
          = asoLoop (arr.set j (arr.getD i default)) (i + 1) j rest := by
        simp [asoLoop]
      rw [hstep, ih]
      simp
    · by_cases h2 : ch = '.'
      · subst h2
        have hstep : asoLoop arr i j ('.' :: rest)
            = asoLoop (arr.set j (arr.getD i default)) (i + 1) (j + 1) rest := by
          simp [asoLoop]
        rw [hstep, ih]
        simp
      · have hstep : asoLoop arr i j (ch :: rest)
            = asoLoop ((arr.set j (arr.getD i default)).set j
                { (arr.set j (arr.getD i default)).getD j default with
                  val := (ch.toNat : Int) })
                (i + 1) (j + 1) rest := by
          simp only [asoLoop, if_neg h1, if_neg h2]
        rw [hstep, ih]
        simp

theorem assign_short_opts_length (lopts : List LOption)
    (so : Option (List Char)) :
    (assign_short_opts lopts so).length = lopts.length := by
  show ((asoLoop lopts 0 0 (so.getD [])).arr.set _ _).length = lopts.length
  rw [List.length_set]
  exact asoLoop_length (so.getD []) lopts 0 0

theorem helpBody_length_le (name : Option String) : (helpBody name).length ≤ 1 := by
  cases name with
  | none => simp [helpBody]
  | some nm =>
    simp only [helpBody]
    split_ifs <;> simp

theorem helpLoop_length_le (lopts : List LOption) (n : Nat) :
    ∀ (s : List Char) (i : Nat), (helpLoop lopts n s i).length ≤ 2 * s.length := by
  intro s
  induction s with
  | nil => intro i; simp [helpLoop]
  | cons ch rest ih =>
    intro i
    by_cases hin : i < n
    · by_cases h1 : ch = '-'
      · subst h1
        have hstep : helpLoop lopts n ('-' :: rest) i
            = helpLoop lopts n rest (i + 1) := by
          simp [helpLoop, hin]
        rw [hstep]
        have := ih (i + 1)
        simp only [List.length_cons]
        omega
      · have hstep : helpLoop lopts n (ch :: rest) i
            = helpHeader ch :: (helpBody (lopts.getD i default).name
              ++ helpLoop lopts n rest (i + 1)) := by
          simp [helpLoop, hin, h1]
        rw [hstep]
        have h2 := ih (i + 1)
        have h3 := helpBody_length_le (lopts.getD i default).name
        simp only [List.length_cons, List.length_append]
        omega
    · have hstep : helpLoop lopts n (ch :: rest) i = [] := by
        simp [helpLoop, hin]
      rw [hstep]
      simp

/-- The closed set of long-option names the dispatch chain recognises. -/
def globalOptionNames : List String :=
  ["input-fmt", "input-fmt-option", "output-fmt", "output-fmt-option", "verbose"]

theorem applyOpt_known_isSome (nm a : String) (ga : SamGlobalArgs)
    (h : nm ∈ globalOptionNames) : (applyOpt nm a ga).isSome = true := by
  fin_cases h <;> rfl

theorem parse_loop_terminates (c : Int) (optarg : String) :
    ∀ (lopts : List LOption) (ga : SamGlobalArgs),
      (∃ e ∈ lopts, e.name = none) →
      (∀ e ∈ lopts, e.val = c →
        e.name = none ∨ e.name ∈ globalOptionNames.map some) →
      (parse_loop c optarg (lopts.length + 1) lopts ga).isSome = true := by
  intro lopts
  induction lopts with
  | nil =>
    intro ga hsent _
    obtain ⟨e, he, _⟩ := hsent
    exact absurd he (List.not_mem_nil e)
  | cons e rest ih =>
    intro ga hsent hknown
    show (parse_loop c optarg (rest.length + 1 + 1) (e :: rest) ga).isSome = true
    cases hn : e.name with
    | none => simp [parse_loop, hn]
    | some nm =>
      by_cases hcv : c = e.val
      · have hdisj := hknown e (List.mem_cons_self e rest) hcv.symm
        have hmem : nm ∈ globalOptionNames := by
          rcases hdisj with h | h
          · rw [hn] at h; exact absurd h (by simp)
          · rw [hn] at h
            obtain ⟨x, hx, hxx⟩ := List.mem_map.mp h
            exact (Option.some_inj.mp hxx) ▸ hx
        obtain ⟨p, hp⟩ :=
          Option.isSome_iff_exists.mp (applyOpt_known_isSome nm optarg ga hmem)
        simp [parse_loop, hn, hcv, hp]
      · rw [parse_loop_skip c optarg (rest.length + 1) e rest ga nm hn hcv]
        apply ih ga
        · obtain ⟨e0, he0, hname0⟩ := hsent
          rcases List.mem_cons.mp he0 with h | h
          · rw [h, hn] at hname0
            exact absurd hname0 (by simp)
          · exact ⟨e0, h, hname0⟩
        · intro x hx hv
          exact hknown x (List.mem_cons_of_mem e hx) hv

/-- The dispatch loop makes no progress on a matched entry whose name is not
one of the five global option names: the state repeats, so no amount of fuel
finishes it. -/
theorem parse_loop_stuck (fuel : Nat) :
    ∀ ga, parse_loop 7 "x" fuel
      [⟨some "frobnicate", 0, 7⟩, ⟨none, 0, 0⟩] ga = none := by
  induction fuel with
  | zero => intro ga; rfl
  | succ fuel ih =>
    intro ga
    have hstep : parse_loop 7 "x" (fuel + 1)
        [⟨some "frobnicate", 0, 7⟩, ⟨none, 0, 0⟩] ga
        = parse_loop 7 "x" fuel [⟨some "frobnicate", 0, 7⟩, ⟨none, 0, 0⟩] ga := by
      simp [parse_loop, applyOpt]
    rw [hstep]
    exact ih ga

/-- C4 counterexample: the dispatch loop does not terminate for every code and
every sentinel-terminated table.  On the sentinel-terminated table
`[{frobnicate, 7}, sentinel]` with code 7, the matched entry's name fires no
`strcmp` branch, the loop body never advances `lopt`, and no iteration bound
(fuel) suffices: the C loop runs forever. -/
theorem C4_counterexample :
    ¬ ∃ fuel : Nat,
      (parse_loop 7 "x" fuel [⟨some "frobnicate", 0, 7⟩, ⟨none, 0, 0⟩]
        zeroArgs).isSome = true := by
  rintro ⟨fuel, hf⟩
  rw [parse_loop_stuck fuel zeroArgs] at hf
  exact absurd hf (by simp)

/-- C4 (amended): `Remap`, `PrintHelp`, `Init` and `Release` are bounded
computations over the table size (`Remap` preserves the table length;
`PrintHelp` writes at most two strings per control character; `Init` and
`Release` are single bounded updates by construction); `Dispatch`'s lookup loop
terminates within one pass (`|table| + 1` iterations) for every
sentinel-terminated table in which every entry whose code equals the scanned
code bears one of the five global option names — but, unlike the original
claim, not for every sentinel-terminated table (see the counterexample). -/
theorem C4_amended_bounded (c : Int) (optarg : String) (lopts : List LOption)
    (ga : SamGlobalArgs) (so : Option (List Char))
    (hsent : ∃ e ∈ lopts, e.name = none)
    (hknown : ∀ e ∈ lopts, e.val = c →
      e.name = none ∨ e.name ∈ globalOptionNames.map some) :
    (assign_short_opts lopts so).length = lopts.length
    ∧ (sam_global_opt_help so).length ≤ 2 * (so.getD []).length
    ∧ (parse_sam_global_opt c optarg lopts ga).isSome = true :=
  ⟨assign_short_opts_length lopts so,
    helpLoop_length_le SAM_GLOBAL_LOPTS_INIT SAM_GLOBAL_LOPTS_INIT.length
      (so.getD []) 0,
    parse_loop_terminates c optarg lopts ga hsent hknown⟩

/-- C4 witness: the canonical table with code 3 (`output-fmt`) and control
string `"i"`. -/
theorem C4_amended_bounded_witness :
    ((∃ e ∈ SAM_GLOBAL_LOPTS_INIT, e.name = none)
      ∧ ∀ e ∈ SAM_GLOBAL_LOPTS_INIT, e.val = 3 →
          e.name = none ∨ e.name ∈ globalOptionNames.map some)
    ∧ ((assign_short_opts SAM_GLOBAL_LOPTS_INIT (some ['i'])).length
        = SAM_GLOBAL_LOPTS_INIT.length
      ∧ (sam_global_opt_help (some ['i'])).length
          ≤ 2 * ((some ['i'] : Option (List Char)).getD []).length
      ∧ (parse_sam_global_opt 3 "cram" SAM_GLOBAL_LOPTS_INIT zeroArgs).isSome
          = true) :=
  ⟨⟨by decide, by decide⟩,
    C4_amended_bounded 3 "cram" SAM_GLOBAL_LOPTS_INIT zeroArgs (some ['i'])
      (by decide) (by decide)⟩
